import Mathlib

/-!
Verification of the CSV table formatter of `src/main.rs`.

A shallow embedding of the `csv` operation of the line-oriented text
utility: the `Reader` line iterator, the `Column` accumulator, the
`Csv` table parser (`Csv::from_reader`) and the `fmt::Display`
renderer.  Machine strings are Lean `String`s (codepoint sequences);
`str::split(',')` is modelled explicitly as `splitComma`.
-/

deriving instance DecidableEq for Except

namespace CsvTool

/-- Models Rust `str::split(',')` over the codepoint sequence of a
string: fields are the maximal delimiter-free runs, empty fields are
preserved, and the empty input yields one empty field (so the result
is never the empty list), exactly as Rust `Split` with a `char`
pattern behaves. -/
def splitCommaChars : List Char → List (List Char)
  | [] => [[]]
  | c :: rest =>
    if c = ',' then [] :: splitCommaChars rest
    else
      match splitCommaChars rest with
      | [] => [[c]]
      | f :: fs => (c :: f) :: fs

/-- Rust `line.split(',')` collected into a list of strings. -/
def splitComma (s : String) : List String :=
  (splitCommaChars s.data).map String.mk

/-- The error taxonomy of `Csv::from_reader`.  The Rust code carries
these as `SimpleError` message strings: `"Empty CSV given."`,
`"Empty header given."` and `"Line {n}: invalid number of values."`;
the constructors name the three messages, the mismatch one keeping
its 1-based input line number payload. -/
inductive CsvError where
  | EmptyInput : CsvError
  | EmptyHeader : CsvError
  | RowWidthMismatch : Nat → CsvError
deriving Repr, DecidableEq

/-- Rust `struct Column { width: usize, values: Vec<String> }`. -/
structure Column where
  width : Nat
  values : List String
deriving Repr, DecidableEq

/-- Rust `Column::from_title`: seeds the value vector with the title and
the width with the title's codepoint count (`title.chars().count()`). -/
def Column.fromTitle (title : String) : Column :=
  { width := title.length, values := [title] }

/-- Rust `Column::append`: pushes one value and widens `width` to the
value's codepoint count when larger. -/
def Column.append (c : Column) (value : String) : Column :=
  { width := max c.width value.length, values := c.values ++ [value] }

/-- Rust `Column::len`: the number of stored values (header included). -/
def Column.len (c : Column) : Nat :=
  c.values.length

/-- Left-justified space padding of `{:<width$}`: the value followed
by ASCII spaces up to `width` codepoints (no truncation when the
value is longer). -/
def padTo (s : String) (width : Nat) : String :=
  s ++ String.mk (List.replicate (width - s.length) ' ')

/-- Rust `Column::format`: one cell, `"| "` then the value left-justified
to the column width, then one space.  The Rust code indexes
`self.values[index]`; the rendering theorems only use indices that
are in bounds (see the safety claim), so the out-of-range default
`""` is never consulted on rendered tables. -/
def Column.format (c : Column) (index : Nat) : String :=
  "| " ++ padTo (c.values.getD index "") c.width ++ " "

/-- Rust `struct Csv { columns: Vec<Column> }`. -/
structure Csv where
  columns : List Column
deriving Repr, DecidableEq

/-- The loop of `Csv::from_reader` over the data lines, `i` being the
0-based `enumerate` counter: split each line on the delimiter, reject
a field-count mismatch with the 1-based input line number `i + 2`,
otherwise append the fields to the columns positionally. -/
def parseRows (columns : List Column) (rows : List String) (i : Nat) :
    Except CsvError Csv :=
  match rows with
  | [] => .ok { columns := columns }
  | line :: rest =>
    if (splitComma line).length ≠ columns.length then
      .error (.RowWidthMismatch (i + 2))
    else
      parseRows (List.zipWith Column.append columns (splitComma line)) rest (i + 1)

/-- Rust `Csv::from_reader`, taking the sequence of lines yielded by the
`Reader`: no first line fails with `EmptyInput`; the first line split
on the delimiter seeds one column per field, an empty column vector
failing with `EmptyHeader`; every further line goes through
`parseRows`. -/
def fromReader (lines : List String) : Except CsvError Csv :=
  match lines with
  | [] => .error .EmptyInput
  | header :: rest =>
    if ((splitComma header).map Column.fromTitle).isEmpty then .error .EmptyHeader
    else parseRows ((splitComma header).map Column.fromTitle) rest 0

/-- Rust `Csv::width`: the sum of the column widths plus 3 decoration
characters per column plus the closing border. -/
def Csv.width (csv : Csv) : Nat :=
  (csv.columns.map Column.width).sum + (3 * csv.columns.length + 1)

/-- Rust `Csv::hr`: `width` dashes followed by the line break of
`writeln!`. -/
def Csv.hr (csv : Csv) : String :=
  String.mk (List.replicate csv.width '-') ++ "\n"

/-- Sequential concatenation of a list of strings, in order, as the
sequence of `write!` calls produces it. -/
def concatAll (l : List String) : String :=
  l.foldr (· ++ ·) ""

/-- Rust `Csv::row`: every column's cell at `index` in order, then the
closing `"|"` and the line break. -/
def Csv.rowStr (csv : Csv) (index : Nat) : String :=
  concatAll (csv.columns.map (fun c => c.format index)) ++ "|\n"

/-- Rust `Csv::num_rows`: the length of `columns[0]`.  The Rust indexing
panics on an empty column vector; the safety claim shows `from_reader`
never builds one, so the default column used for the empty case is
never consulted on parsed tables. -/
def Csv.numRows (csv : Csv) : Nat :=
  (csv.columns.getD 0 { width := 0, values := [] }).len

/-- Rust `impl fmt::Display for Csv`: rule, header row, rule, and if more
than one row exists, every data row followed by a final rule. -/
def Csv.render (csv : Csv) : String :=
  csv.hr ++ csv.rowStr 0 ++ csv.hr ++
    (if 1 < csv.numRows then
      concatAll (((List.range csv.numRows).drop 1).map csv.rowStr) ++ csv.hr
    else "")

/-- The `csv` operation: parse, then render the table to the output
string. -/
def csvOp (lines : List String) : Except CsvError String :=
  (fromReader lines).map Csv.render

/-- The outcome of one `Reader::next` call: end of input, a yielded
line, or a panic of the byte-range slice `buf[..len - 1]`. -/
inductive ReadResult where
  | eof : ReadResult
  | line : String → ReadResult
  | panic : ReadResult
deriving Repr, DecidableEq

/-- Rust `Reader::next`, applied to the chunk that `read_line` appended to
the cleared buffer (the line content together with its trailing
`'\n'` when one was present in the input).  `len` is the chunk's byte
count; a zero `len` signals end of input, and otherwise the code
returns the slice `buf[..len - 1]`, which drops the final character
exactly when that character occupies one byte, and panics on a
non-boundary byte index — that is, when the final character is
multi-byte. -/
def readerNext (chunk : String) : ReadResult :=
  match chunk.data.getLast? with
  | none => .eof
  | some c =>
    if c.utf8Size = 1 then .line (String.mk chunk.data.dropLast)
    else .panic

/-- The maximum codepoint count over a list of values (0 when the
list is empty): the quantity the width invariant of the spec speaks
about. -/
def maxWidth (vs : List String) : Nat :=
  vs.foldr (fun v acc => max v.length acc) 0

/-! Basic facts about the delimiter split and the width maximum. -/

theorem splitCommaChars_ne_nil (l : List Char) : splitCommaChars l ≠ [] := by
  induction l with
  | nil => simp [splitCommaChars]
  | cons c rest ih =>
    rw [splitCommaChars]
    split
    · exact List.cons_ne_nil _ _
    · cases hr : splitCommaChars rest <;> simp

theorem splitComma_ne_nil (s : String) : splitComma s ≠ [] := by
  simpa [splitComma] using splitCommaChars_ne_nil s.data

theorem maxWidth_nil : maxWidth [] = 0 := rfl

theorem maxWidth_cons (v : String) (vs : List String) :
    maxWidth (v :: vs) = max v.length (maxWidth vs) := rfl

theorem maxWidth_concat (vs : List String) (v : String) :
    maxWidth (vs ++ [v]) = max (maxWidth vs) v.length := by
  induction vs with
  | nil => simp [maxWidth_nil, maxWidth_cons]
  | cons u us ih =>
    rw [List.cons_append, maxWidth_cons, ih, maxWidth_cons]
    omega

theorem length_le_maxWidth {v : String} {vs : List String} (h : v ∈ vs) :
    v.length ≤ maxWidth vs := by
  induction vs with
  | nil => cases h
  | cons u us ih =>
    rw [maxWidth_cons]
    rcases List.mem_cons.mp h with rfl | h
    · omega
    · have := ih h
      omega

/-! The invariant `Csv::from_reader` maintains on every column while it
accumulates the data rows: the value count is the number of appends so
far plus one for the header, and `width` is the running maximum of the
codepoint counts of the stored values. -/

def ColInv (m : Nat) (c : Column) : Prop :=
  c.values.length = m ∧ c.width = maxWidth c.values

theorem fromTitle_colInv (t : String) : ColInv 1 (Column.fromTitle t) := by
  refine ⟨rfl, ?_⟩
  simp [Column.fromTitle, maxWidth_cons, maxWidth_nil]

theorem append_colInv {m : Nat} {c : Column} (v : String) (h : ColInv m c) :
    ColInv (m + 1) (c.append v) := by
  obtain ⟨h1, h2⟩ := h
  refine ⟨?_, ?_⟩
  · simp [Column.append, h1]
  · simp [Column.append, maxWidth_concat, h2]

theorem zipWith_append_colInv (columns : List Column) :
    ∀ (values : List String) (m : Nat),
    columns.length = values.length →
    (∀ c ∈ columns, ColInv m c) →
    ∀ c ∈ List.zipWith Column.append columns values, ColInv (m + 1) c := by
  induction columns with
  | nil =>
    intro values m _ _ c hc
    simp at hc
  | cons col cols ih =>
    intro values m hlen hinv c hc
    cases values with
    | nil => simp at hlen
    | cons v vs =>
      rw [List.zipWith_cons_cons] at hc
      rcases List.mem_cons.mp hc with rfl | hc
      · exact append_colInv v (hinv col (by simp))
      · exact ih vs m (by simpa using hlen)
          (fun c hc => hinv c (List.mem_cons_of_mem _ hc)) c hc

theorem parseRows_ok_inv (rows : List String) :
    ∀ (columns : List Column) (i m : Nat) (csv : Csv),
    parseRows columns rows i = .ok csv →
    (∀ c ∈ columns, ColInv m c) →
    csv.columns.length = columns.length ∧
      ∀ c ∈ csv.columns, ColInv (m + rows.length) c := by
  induction rows with
  | nil =>
    intro columns i m csv h hinv
    rw [parseRows] at h
    cases h
    exact ⟨rfl, by simpa using hinv⟩
  | cons line rest ih =>
    intro columns i m csv h hinv
    rw [parseRows] at h
    split at h
    · cases h
    · rename_i hlen
      rw [not_not] at hlen
      have hzlen : (List.zipWith Column.append columns (splitComma line)).length
          = columns.length := by
        rw [List.length_zipWith]
        omega
      have hzinv := zipWith_append_colInv columns (splitComma line) m hlen.symm hinv
      obtain ⟨h1, h2⟩ := ih _ (i + 1) (m + 1) csv h hzinv
      refine ⟨by rw [h1, hzlen], fun c hc => ?_⟩
      have := h2 c hc
      have harith : m + 1 + rest.length = m + (line :: rest).length := by
        simp
        omega
      rwa [harith] at this

theorem fromReader_ok_inv (header : String) (rest : List String) (csv : Csv)
    (h : fromReader (header :: rest) = .ok csv) :
    csv.columns.length = (splitComma header).length ∧
      ∀ c ∈ csv.columns, ColInv (1 + rest.length) c := by
  cases hs : splitComma header with
  | nil => exact absurd hs (splitComma_ne_nil header)
  | cons f fs =>
    rw [fromReader, hs] at h
    simp only [List.map_cons, List.isEmpty_cons, Bool.false_eq_true, if_false] at h
    have hinit : ∀ c ∈ (f :: fs).map Column.fromTitle, ColInv 1 c := by
      intro c hc
      obtain ⟨t, -, rfl⟩ := List.mem_map.mp hc
      exact fromTitle_colInv t
    obtain ⟨h1, h2⟩ := parseRows_ok_inv rest _ 0 1 csv h hinit
    refine ⟨by simpa using h1, h2⟩

theorem parseRows_first_mismatch (rows : List String) :
    ∀ (k : Nat) (columns : List Column) (i : Nat),
    k < rows.length →
    (∀ line ∈ rows.take k, (splitComma line).length = columns.length) →
    (splitComma (rows.getD k "")).length ≠ columns.length →
    parseRows columns rows i = .error (.RowWidthMismatch (i + k + 2)) := by
  induction rows with
  | nil =>
    intro k columns i hk
    simp at hk
  | cons line rest ih =>
    intro k columns i hk htake hdiff
    cases k with
    | zero =>
      rw [parseRows, if_pos (by simpa using hdiff)]
    | succ k =>
      have hline : (splitComma line).length = columns.length :=
        htake line (by simp [List.take_succ_cons])
      rw [parseRows, if_neg (by rw [not_not]; exact hline)]
      have hzlen : (List.zipWith Column.append columns (splitComma line)).length
          = columns.length := by
        rw [List.length_zipWith]
        omega
      have h2 := ih k (List.zipWith Column.append columns (splitComma line)) (i + 1)
        (by simpa using hk)
        (by
          intro l hl
          rw [hzlen]
          exact htake l (by simp [List.take_succ_cons, hl]))
        (by rw [hzlen]; simpa using hdiff)
      rw [h2]
      have : i + 1 + k + 2 = i + (k + 1) + 2 := by omega
      rw [this]

theorem parseRows_all_match (rows : List String) :
    ∀ (columns : List Column) (i : Nat),
    (∀ line ∈ rows, (splitComma line).length = columns.length) →
    ∃ csv, parseRows columns rows i = .ok csv := by
  induction rows with
  | nil =>
    intro columns i _
    exact ⟨{ columns := columns }, rfl⟩
  | cons line rest ih =>
    intro columns i hall
    rw [parseRows, if_neg (by rw [not_not]; exact hall line (by simp))]
    apply ih
    intro l hl
    rw [List.length_zipWith, hall line (by simp), Nat.min_self]
    exact hall l (List.mem_cons_of_mem _ hl)

/-! Lengths of the rendered pieces. -/

theorem concatAll_length (l : List String) :
    (concatAll l).length = (l.map String.length).sum := by
  induction l with
  | nil => rfl
  | cons s t ih =>
    show (s ++ concatAll t).length = _
    rw [String.length_append, ih]
    simp

theorem padTo_length {s : String} {w : Nat} (h : s.length ≤ w) :
    (padTo s w).length = w := by
  rw [padTo, String.length_append]
  show s.length + (List.replicate (w - s.length) ' ').length = w
  rw [List.length_replicate]
  omega

theorem format_length {c : Column} {i : Nat} (hi : i < c.values.length)
    (hw : c.width = maxWidth c.values) :
    (c.format i).length = c.width + 3 := by
  rw [Column.format, String.length_append, String.length_append]
  have hv : c.values.getD i "" = c.values[i] := List.getD_eq_getElem c.values "" hi
  have hmem : c.values[i] ∈ c.values := List.getElem_mem hi
  have hle : (c.values.getD i "").length ≤ c.width := by
    rw [hv, hw]
    exact length_le_maxWidth hmem
  rw [padTo_length hle]
  have h1 : ("| " : String).length = 2 := by decide
  have h2 : (" " : String).length = 1 := by decide
  omega

theorem sum_width_add_three (l : List Column) :
    (l.map fun c => c.width + 3).sum = (l.map Column.width).sum + 3 * l.length := by
  induction l with
  | nil => rfl
  | cons c t ih =>
    simp [ih]
    ring

theorem readerNext_line_concat (l : List Char) (c : Char) (h : c.utf8Size = 1) :
    readerNext (String.mk (l ++ [c])) = ReadResult.line (String.mk l) := by
  simp [readerNext, List.getLast?_concat, List.dropLast_concat, h]

/-! The claims. -/

/-- C1 (counterexample): on the three-line input `name,age` / `Ann,30` /
`Bob,5`, the rendered output is NOT the block displayed in spec section 8
P6, whose horizontal rules are 15 dashes long: the section 4.3 formula
gives rules of width 4 + 3 + 3·2 + 1 = 14. -/
theorem p6_render_not_fifteen_dash :
    csvOp ["name,age", "Ann,30", "Bob,5"] ≠
      Except.ok
        "---------------\n| name | age |\n---------------\n| Ann  | 30  |\n| Bob  | 5   |\n---------------\n" := by
  decide

/-- C1 (amended): on the three-line input `name,age` / `Ann,30` / `Bob,5`,
the csv operation succeeds and renders exactly three horizontal rules of
14 dashes each (the section 4.3 formula: 4 + 3 + 3·2 + 1) around the
bordered rows `| name | age |`, `| Ann  | 30  |`, `| Bob  | 5   |`. -/
theorem p6_render_exact :
    csvOp ["name,age", "Ann,30", "Bob,5"] =
      Except.ok
        "--------------\n| name | age |\n--------------\n| Ann  | 30  |\n| Bob  | 5   |\n--------------\n" := by
  decide

/-- C2: for every table `from_reader` returns, every rendered row line at
an in-range index (the header at 0 and every data row) consists of
`sum of widths + 3·columns + 1` characters followed by the line break,
and the horizontal rule is exactly that many dashes followed by the
line break. -/
theorem rendered_row_and_rule_width (lines : List String) (csv : Csv)
    (h : fromReader lines = Except.ok csv) (i : Nat) (hi : i < csv.numRows) :
    (csv.rowStr i).length
        = ((csv.columns.map Column.width).sum + (3 * csv.columns.length + 1)) + 1 ∧
      csv.hr.data
        = List.replicate
            ((csv.columns.map Column.width).sum + (3 * csv.columns.length + 1)) '-'
          ++ ['\n'] := by
  cases lines with
  | nil => rw [fromReader] at h; cases h
  | cons header rest =>
    obtain ⟨hlen, hinv⟩ := fromReader_ok_inv header rest csv h
    have hrows : ∀ c ∈ csv.columns, c.values.length = 1 + rest.length :=
      fun c hc => (hinv c hc).1
    have hnum : csv.numRows ≤ 1 + rest.length := by
      rw [Csv.numRows]
      cases hc : csv.columns with
      | nil => simp [Column.len, List.getD]
      | cons c0 cs =>
        rw [List.getD_cons_zero]
        exact Nat.le_of_eq (hrows c0 (by rw [hc]; simp))
    constructor
    · rw [Csv.rowStr, String.length_append, concatAll_length, List.map_map]
      have hmap : csv.columns.map (String.length ∘ fun c => c.format i)
          = csv.columns.map fun c => c.width + 3 := by
        apply List.map_congr_left
        intro c hc
        exact format_length (by rw [hrows c hc]; omega) (hinv c hc).2
      rw [hmap, sum_width_add_three]
      have : ("|\n" : String).length = 2 := by decide
      omega
    · rw [Csv.hr, String.data_append]
      have : ("\n" : String).data = ['\n'] := rfl
      rw [this]
      rfl

/-- C2 witness: the theorem applied to the parsed header-only input
`a,b` at row index 0. -/
theorem rendered_row_and_rule_width_witness :
    ((Csv.mk [Column.mk 1 ["a"], Column.mk 1 ["b"]]).rowStr 0).length
        = (((Csv.mk [Column.mk 1 ["a"], Column.mk 1 ["b"]]).columns.map Column.width).sum
            + (3 * (Csv.mk [Column.mk 1 ["a"], Column.mk 1 ["b"]]).columns.length + 1)) + 1
      ∧ (Csv.mk [Column.mk 1 ["a"], Column.mk 1 ["b"]]).hr.data
        = List.replicate
            (((Csv.mk [Column.mk 1 ["a"], Column.mk 1 ["b"]]).columns.map Column.width).sum
              + (3 * (Csv.mk [Column.mk 1 ["a"], Column.mk 1 ["b"]]).columns.length + 1)) '-'
          ++ ['\n'] :=
  rendered_row_and_rule_width ["a,b"] (Csv.mk [Column.mk 1 ["a"], Column.mk 1 ["b"]])
    (by decide) 0 (by decide)

/-- C3: on every table `from_reader` returns, each column's `width`
equals the maximum codepoint count over the stored values (header
included), and a single `append` preserves that equality. -/
theorem column_width_invariant (lines : List String) (csv : Csv)
    (h : fromReader lines = Except.ok csv) :
    (∀ c ∈ csv.columns, c.width = maxWidth c.values) ∧
      ∀ (c : Column) (v : String), c.width = maxWidth c.values →
        (c.append v).width = maxWidth (c.append v).values := by
  cases lines with
  | nil => rw [fromReader] at h; cases h
  | cons header rest =>
    obtain ⟨-, hinv⟩ := fromReader_ok_inv header rest csv h
    refine ⟨fun c hc => (hinv c hc).2, fun c v hw => ?_⟩
    simp [Column.append, maxWidth_concat, hw]

/-- C3 witness: the invariant read off the first column of the parsed
input `a,b` / `1,2`. -/
theorem column_width_invariant_witness :
    (Column.mk 1 ["a", "1"]).width = maxWidth (Column.mk 1 ["a", "1"]).values :=
  (column_width_invariant ["a,b", "1,2"]
      (Csv.mk [Column.mk 1 ["a", "1"], Column.mk 1 ["b", "2"]]) (by decide)).1
    (Column.mk 1 ["a", "1"]) (by decide)

/-- C4: when the k-th data line (1-indexed) is the first whose field
count differs from the header's column count, `from_reader` fails with
`RowWidthMismatch` carrying line number k + 1; and when every data line
matches, `from_reader` returns a table. -/
theorem row_width_mismatch_line_number (header : String) (rest : List String) (k : Nat) :
    (1 ≤ k → k - 1 < rest.length →
      (∀ line ∈ rest.take (k - 1),
        (splitComma line).length = (splitComma header).length) →
      (splitComma (rest.getD (k - 1) "")).length ≠ (splitComma header).length →
      fromReader (header :: rest) = Except.error (CsvError.RowWidthMismatch (k + 1))) ∧
    ((∀ line ∈ rest, (splitComma line).length = (splitComma header).length) →
      ∃ csv, fromReader (header :: rest) = Except.ok csv) := by
  cases hs : splitComma header with
  | nil => exact absurd hs (splitComma_ne_nil header)
  | cons f fs =>
    have hclen : ((f :: fs).map Column.fromTitle).length = (splitComma header).length := by
      rw [List.length_map, hs]
    constructor
    · intro hk1 hk2 htake hdiff
      rw [fromReader, hs]
      simp only [List.map_cons, List.isEmpty_cons, Bool.false_eq_true, if_false]
      have hmis := parseRows_first_mismatch rest (k - 1)
        (Column.fromTitle f :: fs.map Column.fromTitle) 0 hk2
        (by
          intro l hl
          rw [show (Column.fromTitle f :: fs.map Column.fromTitle).length
              = (f :: fs).length by simp]
          exact htake l hl)
        (by
          rw [show (Column.fromTitle f :: fs.map Column.fromTitle).length
              = (f :: fs).length by simp]
          exact hdiff)
      rw [hmis]
      have harith : 0 + (k - 1) + 2 = k + 1 := by omega
      rw [harith]
    · intro hall
      rw [fromReader, hs]
      simp only [List.map_cons, List.isEmpty_cons, Bool.false_eq_true, if_false]
      apply parseRows_all_match
      intro l hl
      rw [show (Column.fromTitle f :: fs.map Column.fromTitle).length
          = (f :: fs).length by simp]
      exact hall l hl

/-- C4 witness: header `a,b`, data lines `1,2` then `x`: the second data
line is the first mismatch and line 3 is reported. -/
theorem row_width_mismatch_line_number_witness :
    fromReader ["a,b", "1,2", "x"] = Except.error (CsvError.RowWidthMismatch 3) :=
  (row_width_mismatch_line_number "a,b" ["1,2", "x"] 2).1 (by omega) (by decide)
    (by decide) (by decide)

/-- C5: a first line that splits into zero fields is rejected with
`EmptyHeader` (a branch that is in fact unreachable: the split never
yields zero fields, as the third conjunct records), while the input
whose first line is the empty string parses to one column whose header
label is the empty string. -/
theorem empty_header_and_empty_first_line :
    (∀ (header : String) (rest : List String),
      splitComma header = [] →
      fromReader (header :: rest) = Except.error CsvError.EmptyHeader) ∧
      fromReader [""] = Except.ok (Csv.mk [Column.mk 0 [""]]) ∧
      ∀ s : String, splitComma s ≠ [] := by
  refine ⟨?_, by decide, splitComma_ne_nil⟩
  intro header rest hsplit
  rw [fromReader, hsplit]
  rfl

/-- C5 witness: the satisfiable parts instantiated — the empty first
line parses to one empty-labelled column, and a concrete split is
non-empty (the zero-field hypothesis of the first part is exactly what
the third part refutes, so that branch is dead code). -/
theorem empty_header_and_empty_first_line_witness :
    fromReader [""] = Except.ok (Csv.mk [Column.mk 0 [""]]) ∧ splitComma "x" ≠ [] :=
  ⟨empty_header_and_empty_first_line.2.1, empty_header_and_empty_first_line.2.2 "x"⟩

/-- C6: the single-line input `a,b` renders to exactly three lines:
rule, `| a | b |`, rule, with nothing after the second rule. -/
theorem header_only_render_exact :
    csvOp ["a,b"] = Except.ok "---------\n| a | b |\n---------\n" := by
  decide

/-- C7: every column of a parsed table holds one value per input line:
the header plus each data line. -/
theorem columns_equal_length (header : String) (rest : List String) (csv : Csv)
    (h : fromReader (header :: rest) = Except.ok csv) :
    ∀ c ∈ csv.columns, c.len = 1 + rest.length := by
  obtain ⟨-, hinv⟩ := fromReader_ok_inv header rest csv h
  intro c hc
  exact (hinv c hc).1

/-- C7 witness: the theorem applied to the parsed input `a,b` / `1,2`
at its first column. -/
theorem columns_equal_length_witness :
    (Column.mk 1 ["a", "1"]).len = 1 + ["1,2"].length :=
  columns_equal_length "a,b" ["1,2"]
    (Csv.mk [Column.mk 1 ["a", "1"], Column.mk 1 ["b", "2"]]) (by decide)
    (Column.mk 1 ["a", "1"]) (by decide)

/-- C8: zero lines of input fail with `EmptyInput` and no output string
is produced. -/
theorem empty_input_rejected :
    csvOp [] = Except.error CsvError.EmptyInput := rfl

/-- C9: a parsed table always has at least one column and at least one
row, and every column holds exactly `num_rows` values, so the indexing
`columns[0]` in `num_rows` and the per-row value indexing during
rendering stay in bounds. -/
theorem columns_nonempty_and_index_safe (lines : List String) (csv : Csv)
    (h : fromReader lines = Except.ok csv) :
    csv.columns ≠ [] ∧ 0 < csv.numRows ∧
      ∀ c ∈ csv.columns, c.values.length = csv.numRows := by
  cases lines with
  | nil => rw [fromReader] at h; cases h
  | cons header rest =>
    obtain ⟨hlen, hinv⟩ := fromReader_ok_inv header rest csv h
    have hne : csv.columns ≠ [] := by
      intro hnil
      rw [hnil] at hlen
      exact splitComma_ne_nil header (List.length_eq_zero.mp hlen.symm)
    obtain ⟨c0, cs, hc⟩ := List.exists_cons_of_ne_nil hne
    have h0 : ColInv (1 + rest.length) c0 := hinv c0 (by rw [hc]; simp)
    have hnum : csv.numRows = 1 + rest.length := by
      rw [Csv.numRows, hc, List.getD_cons_zero]
      exact h0.1
    refine ⟨hne, by omega, fun c hcc => ?_⟩
    rw [hnum]
    exact (hinv c hcc).1

/-- C9 witness: the header-only input `a,b` yields a table with a
non-empty column vector. -/
theorem columns_nonempty_and_index_safe_witness :
    (Csv.mk [Column.mk 1 ["a"], Column.mk 1 ["b"]]).columns ≠ [] :=
  (columns_nonempty_and_index_safe ["a,b"]
    (Csv.mk [Column.mk 1 ["a"], Column.mk 1 ["b"]]) (by decide)).1

/-- C10: `Reader::next` drops the final character of every chunk whose
final character is one byte wide — so a `\n`-terminated line loses just
its line break, while a last line without a trailing `\n` loses its
last character — and the byte slice panics when the chunk ends in a
multi-byte character, as on the chunk `é`. -/
theorem reader_next_drops_final_byte :
    (∀ s : String, readerNext (s.push '\n') = ReadResult.line s) ∧
      (∀ (l : List Char) (c : Char), c.utf8Size = 1 →
        readerNext (String.mk (l ++ [c])) = ReadResult.line (String.mk l)) ∧
      readerNext (String.mk ['é']) = ReadResult.panic := by
  refine ⟨?_, readerNext_line_concat, by decide⟩
  intro s
  obtain ⟨data⟩ := s
  exact readerNext_line_concat data '\n' (by decide)

/-- C10 witness: the chunk `ab` (no trailing newline, one-byte final
character) yields `a` — the final character is silently dropped. -/
theorem reader_next_drops_final_byte_witness :
    readerNext (String.mk ['a', 'b']) = ReadResult.line (String.mk ['a']) :=
  reader_next_drops_final_byte.2.1 ['a'] 'b' (by decide)

end CsvTool
